import Mathlib

/-!
Verification development for the glTF export core of `rvmparser`
(`src/ExportGLTF.cpp`).  The C++ source is shallowly embedded below:
machine 32-bit integers are `Nat` with explicit `% 2 ^ 32` where the code
can overflow, the output stream is a byte list, `fwrite`/`fopen` outcomes
are supplied by an oracle, and the logger is an event list.
-/

namespace RvmGltf

/-- A byte, kept as a `Nat` in `[0, 255]` by construction of the encoders. -/
abbrev Byte := Nat

/-- Truncation to an unsigned 32-bit value, the representation of
`uint32_t` arithmetic in this embedding. -/
def u32 (n : Nat) : Nat := n % 2 ^ 32

/-- Little-endian encoding of a 32-bit value, as written by `fwrite` of a
`uint32_t` on a little-endian target (the container format is
little-endian per the spec). -/
def u32le (n : Nat) : List Byte :=
  [n % 256, n / 256 % 256, n / 65536 % 256, n / 16777216 % 256]

/-- Decode the little-endian 32-bit value stored at byte offset `i` of a
byte list (used to state claims about emitted header fields). -/
def u32At (bs : List Byte) (i : Nat) : Nat :=
  bs.getD i 0 + 256 * bs.getD (i + 1) 0 + 65536 * bs.getD (i + 2) 0 +
    16777216 * bs.getD (i + 3) 0

/-- UTF-8 encoding of one character, the byte expansion `fwrite` sees for
the serialized JSON text. -/
def utf8EncodeChar (c : Char) : List Byte :=
  let n := c.toNat
  if n < 128 then [n]
  else if n < 2048 then [192 + n / 64, 128 + n % 64]
  else if n < 65536 then [224 + n / 4096, 128 + n / 64 % 64, 128 + n % 64]
  else [240 + n / 262144, 128 + n / 4096 % 64, 128 + n / 64 % 64, 128 + n % 64]

/-- UTF-8 bytes of a string. -/
def strBytes (s : String) : List Byte :=
  (s.data.map utf8EncodeChar).flatten

/-- Rounding up to the next multiple of 4: the chunk padding rule of the
spec (§4.3/§6). -/
def pad4 (n : Nat) : Nat := (n + 3) / 4 * 4

/-! ## Data model

`Store.h` is not part of the sources given, so the scene-graph node type
and the intrusive list are modelled from the spec (§3) and from how
`ExportGLTF.cpp` consumes them. -/

/-- Modelled from the spec: the discriminant `Group::Kind` of `Store.h`
(File, Model, Group). -/
inductive GKind where
  | file
  | model
  | group
deriving DecidableEq, Repr

/-- Modelled from the spec: an `Attribute` of `Store.h`, a key/value pair
of strings owned by its Group; the intrusive `next` chain is represented
by membership in a `List`. -/
structure Attribute where
  key : String
  val : String
deriving DecidableEq, Repr

/-- Modelled from the spec: a `Group` node of `Store.h`. `attributes` and
`groups` are the intrusive singly-linked children lists, in source
iteration order (`first`/`next` chains become `List`s). -/
inductive Group where
  | node (kind : GKind) (name : Option String) (attributes : List Attribute)
      (groups : List Group)

def Group.kind : Group → GKind
  | .node k _ _ _ => k

def Group.name : Group → Option String
  | .node _ n _ _ => n

def Group.attributes : Group → List Attribute
  | .node _ _ a _ => a

def Group.groups : Group → List Group
  | .node _ _ _ g => g

/-- A payload descriptor (`DataItem` in `ExportGLTF.cpp`): the referenced
bytes plus the stored `size` field, which the code sets to the
`uint32_t` cast of the registered size. -/
structure DataItem where
  bytes : List Byte
  size : Nat
deriving DecidableEq, Repr

/-- A JSON node object as built by `processGroup`: members `name`,
`extras`, `children` in rapidjson insertion order, each present exactly
when the code calls `AddMember` for it.  `extras` keeps the member list
as appended — rapidjson's `AddMember` does not deduplicate keys. -/
structure JNode where
  name : Option String
  extras : Option (List (String × String))
  children : Option (List Nat)
deriving DecidableEq, Repr

/-- The default `JNode` used by `getD` when stating claims about emitted
nodes. -/
def dNode : JNode := ⟨none, none, none⟩

/-- The `Context` struct of `ExportGLTF.cpp`: the growing node array, the
running payload byte total (`uint32_t`), the staged payload descriptors
(modelled from the spec: `ListHeader<DataItem>::insert` appends to the
tail of the singly-linked list, so it is a `List` extended at the right),
and the attribute-emission flag (initialised `true` in the struct). -/
structure Context where
  nodes : List JNode
  dataBytes : Nat
  dataItems : List DataItem
  includeAttributes : Bool
deriving Repr

/-- A fresh `Context` as constructed at the top of `exportGLTF`. -/
def initCtx : Context := ⟨[], 0, [], true⟩

/-- The assertion at the top of `addDataItem`:
`ctx->dataBytes + size <= std::numeric_limits<uint32_t>::max()`. -/
def addDataItemAssert (ctx : Context) (size : Nat) : Prop :=
  ctx.dataBytes + size ≤ 2 ^ 32 - 1

instance (ctx : Context) (size : Nat) : Decidable (addDataItemAssert ctx size) := by
  unfold addDataItemAssert
  infer_instance

/-- Model of `addDataItem` in `ExportGLTF.cpp`: appends a descriptor (the `copy`
flag only changes ownership of the bytes, not their value: `memcpy` into
the arena yields identical bytes), stores the `uint32_t` cast of `size`,
returns the previous `dataBytes` as the offset, and advances `dataBytes`
with 32-bit wraparound semantics. -/
def addDataItem (ctx : Context) (bytes : List Byte) (copy : Bool) : Nat × Context :=
  let item : DataItem := ⟨bytes, u32 bytes.length⟩
  let offset := ctx.dataBytes
  (offset,
    { ctx with
      dataItems := ctx.dataItems ++ [item],
      dataBytes := u32 (ctx.dataBytes + item.size) })

mutual

/-- Model of `processGroup` in `ExportGLTF.cpp`: builds the JSON object for one
Group (members `name`, `extras`, `children` in `AddMember` order, the
`extras` member present exactly when the flag is set and the attribute
list is non-empty, the `children` member exactly when the child list is
non-empty), recursively processes the children first, appends the object
to the node array and returns the pre-append array size as the index. -/
def processGroup (ctx : Context) (g : Group) : Nat × Context :=
  match g with
  | .node _ name attrs cs =>
    let extras : Option (List (String × String)) :=
      if ctx.includeAttributes && !attrs.isEmpty then
        some (attrs.map fun a => (a.key, a.val))
      else none
    let r := processChildren ctx cs
    let children : Option (List Nat) := if !cs.isEmpty then some r.1 else none
    let nd : JNode := ⟨name, extras, children⟩
    (r.2.nodes.length, { r.2 with nodes := r.2.nodes ++ [nd] })

/-- The `for (Group* child = group->groups.first; ...)` loop inside
`processGroup`, collecting the returned child indices in sibling order. -/
def processChildren (ctx : Context) (gs : List Group) : List Nat × Context :=
  match gs with
  | [] => ([], ctx)
  | g :: rest =>
    let r1 := processGroup ctx g
    let r2 := processChildren r1.2 rest
    (r1.1 :: r2.1, r2.2)

end

/-- Model of `processModel` in `ExportGLTF.cpp`: pushes `processGroup`'s result for
every direct child Group of the model onto the `siblings` vector — i.e.
appends the child index list; no JSON node is made for the Model. -/
def processModel (ctx : Context) (siblings : List Nat) (model : Group) :
    List Nat × Context :=
  let r := processChildren ctx model.groups
  (siblings ++ r.1, r.2)

/-- The `for` loop of `processFile` over the file's Model children. -/
def processModels (ctx : Context) (siblings : List Nat) :
    List Group → List Nat × Context
  | [] => (siblings, ctx)
  | m :: ms =>
    let r := processModel ctx siblings m
    processModels r.2 r.1 ms

/-- Model of `processFile` in `ExportGLTF.cpp`: recurses into every Model of the
file; no JSON node is made for the File. -/
def processFile (ctx : Context) (siblings : List Nat) (file : Group) :
    List Nat × Context :=
  processModels ctx siblings file.groups

/-- The root loop of `exportGLTF` over `store->getFirstRoot()`'s chain of
File roots, accumulating `rootNodes`. -/
def processFiles (ctx : Context) (siblings : List Nat) :
    List Group → List Nat × Context
  | [] => (siblings, ctx)
  | f :: fs =>
    let r := processFile ctx siblings f
    processFiles r.2 r.1 fs

/-- The whole scene-graph walk of `exportGLTF`: root-node index list and
final context, starting from the freshly constructed `Context`. -/
def walkStore (store : List Group) : List Nat × Context :=
  processFiles initCtx [] store

/-- The scene-graph walk started with `includeAttributes = false`
(the flag is a field of `Context`; `exportGLTF` leaves it `true`, the
claim about disabling it quantifies over the flag). -/
def walkStoreNoAttrs (store : List Group) : List Nat × Context :=
  processFiles ⟨[], 0, [], false⟩ [] store

/-! ## JSON document and its serialization -/

/-- A JSON value as held by a rapidjson `Value`: object members are an
ordered list of key/value pairs, duplicates allowed (`AddMember`
appends unconditionally). -/
inductive Json where
  | num (n : Nat)
  | str (s : String)
  | arr (elems : List Json)
  | obj (members : List (String × Json))

/-- Hex digit for JSON control-character escapes. -/
def hexDigit (n : Nat) : Char :=
  if n < 10 then Char.ofNat (48 + n) else Char.ofNat (87 + n)

/-- rapidjson `Writer` escaping of one character inside a JSON string. -/
def escapeChar (c : Char) : List Char :=
  if c = '"' then ['\\', '"']
  else if c = '\\' then ['\\', '\\']
  else if c = Char.ofNat 8 then ['\\', 'b']
  else if c = Char.ofNat 12 then ['\\', 'f']
  else if c = '\n' then ['\\', 'n']
  else if c = Char.ofNat 13 then ['\\', 'r']
  else if c = '\t' then ['\\', 't']
  else if c.toNat < 32 then
    ['\\', 'u', '0', '0', hexDigit (c.toNat / 16), hexDigit (c.toNat % 16)]
  else [c]

/-- A JSON string literal: quotes around the escaped character data. -/
def quoteStr (s : String) : String :=
  ⟨'"' :: (s.data.map escapeChar).flatten ++ ['"']⟩

mutual

/-- Compact serialization of a JSON value, as produced by
`rj::Writer<rj::StringBuffer>` (no whitespace). -/
def Json.ser : Json → String
  | .num n => toString n
  | .str s => quoteStr s
  | .arr xs => "[" ++ serElems xs ++ "]"
  | .obj ms => "\x7b" ++ serMembers ms ++ "\x7d"

/-- Comma-separated serialization of array elements. -/
def serElems : List Json → String
  | [] => ""
  | [x] => x.ser
  | x :: y :: xs => x.ser ++ "," ++ serElems (y :: xs)

/-- Comma-separated serialization of object members. -/
def serMembers : List (String × Json) → String
  | [] => ""
  | [m] => quoteStr m.1 ++ ":" ++ m.2.ser
  | m :: m2 :: ms => quoteStr m.1 ++ ":" ++ m.2.ser ++ "," ++ serMembers (m2 :: ms)

end

/-- The JSON object `processGroup` built for a node, in member insertion
order `name`, `extras`, `children`. -/
def JNode.toJson (n : JNode) : Json :=
  .obj
    ((match n.name with
      | some s => [("name", Json.str s)]
      | none => []) ++
     (match n.extras with
      | some kvs => [("extras", Json.obj (kvs.map fun kv => (kv.1, Json.str kv.2)))]
      | none => []) ++
     (match n.children with
      | some is => [("children", Json.arr (is.map Json.num))]
      | none => []))

/-- The top-level document assembled in `exportGLTF`: `asset`, `scene`,
`scenes` (one scene whose `nodes` member lists the root indices),
`nodes`, and the empty placeholder arrays, in `AddMember` order. -/
def buildDoc (nodes : List JNode) (rootNodes : List Nat) : Json :=
  .obj
    [("asset", .obj []),
     ("scene", .num 0),
     ("scenes", .arr [.obj [("nodes", .arr (rootNodes.map Json.num))]]),
     ("nodes", .arr (nodes.map JNode.toJson)),
     ("meshes", .arr []),
     ("accessors", .arr []),
     ("bufferViews", .arr []),
     ("buffers", .arr [])]

/-- The serialized JSON text bytes for a store — `buffer.GetString()` /
`buffer.GetSize()` of `exportGLTF`'s `StringBuffer`. -/
def jsonBytesOf (store : List Group) : List Byte :=
  strBytes (Json.ser (buildDoc (walkStore store).2.nodes (walkStore store).1))

/-! ## The binary container writer -/

/-- Outcome oracle for the I/O calls of `exportGLTF`: `openOk` is the
`fopen` outcome, `writeOk k` the outcome of the `k`-th `fwrite`
(0 = header, 1 = JSON chunk header, 2 = JSON body, 3 = BIN chunk header,
`4 + i` = the `i`-th data item). -/
structure WriteOracle where
  openOk : Bool
  writeOk : Nat → Bool

/-- The oracle on which every I/O call succeeds. -/
def allOk : WriteOracle := ⟨true, fun _ => true⟩

/-- The oracle on which `fopen` succeeds and exactly the `j`-th `fwrite`
fails. -/
def failAt (j : Nat) : WriteOracle := ⟨true, fun k => decide (k ≠ j)⟩

/-- One logger message of `exportGLTF`, one constructor per format
string; each carries the `path` argument, the BIN-data message also the
offset reached. -/
inductive LogMsg where
  | openFail (path : String)
  | headerFail (path : String)
  | jsonHeaderFail (path : String)
  | jsonDataFail (path : String)
  | binHeaderFail (path : String)
  | binDataFail (path : String) (offset : Nat)
deriving DecidableEq, Repr

/-- The destination-path argument carried by a logger message. -/
def LogMsg.pathArg : LogMsg → String
  | .openFail p => p
  | .headerFail p => p
  | .jsonHeaderFail p => p
  | .jsonDataFail p => p
  | .binHeaderFail p => p
  | .binDataFail p _ => p

/-- One `logger(level, ...)` call. -/
structure LogEvent where
  level : Nat
  msg : LogMsg
deriving DecidableEq, Repr

/-- Observable outcome of one `exportGLTF` call: the returned Bool, the
logger calls in order, whether the stream was opened and whether it was
closed, and the bytes successfully written to it. -/
structure ExportResult where
  ok : Bool
  log : List LogEvent
  opened : Bool
  closed : Bool
  written : List Byte
deriving DecidableEq, Repr

/-- The fixed 12-byte file header of `exportGLTF`: magic `0x46546C67`,
version `2`, and the constant total-length expression `12 + 8 + 8`. -/
def gltfHeaderBytes : List Byte :=
  u32le 0x46546C67 ++ u32le 2 ++ u32le (12 + 8 + 8)

/-- The context after the walk and the two unconditional `addDataItem`
calls (`"test0"` by reference, `"test1"` by copy) of `exportGLTF`. -/
def exportCtx (store : List Group) : Context :=
  (addDataItem (addDataItem (walkStore store).2 (strBytes "test0") false).2
    (strBytes "test1") true).2

/-- The JSON chunk header written by `exportGLTF`: `buffer.GetSize()`
cast to `uint32_t`, then the JSON type tag `0x4E4F534A`. -/
def jsonChunkHeaderOf (store : List Group) : List Byte :=
  u32le (u32 (jsonBytesOf store).length) ++ u32le 0x4E4F534A

/-- The BIN chunk header written by `exportGLTF`: `ctx.dataBytes`, then
the BIN type tag `0x004E4942`. -/
def binChunkHeaderOf (store : List Group) : List Byte :=
  u32le (exportCtx store).dataBytes ++ u32le 0x004E4942

/-- The item-writing loop of the BIN chunk: one `fwrite` of `item->size`
bytes per descriptor, `offset` advanced with `uint32_t` wraparound; on a
failed write it logs the offset reached so far, closes the stream and
fails; when the loop completes the stream is closed and `true` returned. -/
def writeItems (path : String) (oracle : WriteOracle) (k : Nat) (offset : Nat)
    (acc : List Byte) : List DataItem → ExportResult
  | [] => ⟨true, [], true, true, acc⟩
  | item :: rest =>
    if oracle.writeOk k then
      writeItems path oracle (k + 1) (u32 (offset + item.size))
        (acc ++ item.bytes.take item.size) rest
    else ⟨false, [⟨2, .binDataFail path offset⟩], true, true, acc⟩

/-- Model of `exportGLTF` in `ExportGLTF.cpp` (POSIX branch), with the I/O
outcomes supplied by `oracle`: open the stream, walk the store into the
document, register the two placeholder payloads, then write header, JSON
chunk header, JSON body, BIN chunk header and the data items, logging a
severity-2 message, closing the stream and returning `false` on the
first failing call.  The debug pretty-print to stdout is not part of the
observable file output and is omitted. -/
def exportGLTF (store : List Group) (path : String) (oracle : WriteOracle) :
    ExportResult :=
  if oracle.openOk then
    if oracle.writeOk 0 then
      if oracle.writeOk 1 then
        if oracle.writeOk 2 then
          if oracle.writeOk 3 then
            writeItems path oracle 4 0
              (gltfHeaderBytes ++ jsonChunkHeaderOf store ++ jsonBytesOf store ++
                binChunkHeaderOf store)
              (exportCtx store).dataItems
          else
            ⟨false, [⟨2, .binHeaderFail path⟩], true, true,
              gltfHeaderBytes ++ jsonChunkHeaderOf store ++ jsonBytesOf store⟩
        else
          ⟨false, [⟨2, .jsonDataFail path⟩], true, true,
            gltfHeaderBytes ++ jsonChunkHeaderOf store⟩
      else
        ⟨false, [⟨2, .jsonHeaderFail path⟩], true, true, gltfHeaderBytes⟩
    else
      ⟨false, [⟨2, .headerFail path⟩], true, true, []⟩
  else
    ⟨false, [⟨2, .openFail path⟩], false, false, []⟩


/-! ## Walker invariants -/

mutual

/-- Every Group's subtree size: the walker materialises one JSON node per
visited group. -/
def gCount : Group → Nat
  | .node _ _ _ cs => 1 + gsCount cs

def gsCount : List Group → Nat
  | [] => 0
  | g :: gs => gCount g + gsCount gs

end

/-- All emitted nodes carry no `extras` member. -/
def extrasNoneAll (ns : List JNode) : Bool :=
  ns.all fun n => n.extras.isNone

/-- Well-formedness of the emitted node array: every index stored in a
node's `children` member is strictly below the node's own index. -/
def ChildrenOK (ns : List JNode) : Prop :=
  ∀ i c, c ∈ ((ns.getD i dNode).children.getD []) → c < i

/-- Executable form of `ChildrenOK`. -/
def childrenOKb (ns : List JNode) : Bool :=
  (List.range ns.length).all fun i =>
    ((ns.getD i dNode).children.getD []).all fun c => decide (c < i)

theorem childrenOKb_of_ChildrenOK {ns : List JNode} (h : ChildrenOK ns) :
    childrenOKb ns = true := by
  unfold childrenOKb
  rw [List.all_eq_true]
  intro i _
  rw [List.all_eq_true]
  intro c hc
  exact decide_eq_true (h i c hc)

theorem ChildrenOK_nil : ChildrenOK [] := by
  intro i c hc
  simp [dNode, List.getD] at hc

theorem getD_append_lt {ns ms : List JNode} {i : Nat} (h : i < ns.length) :
    (ns ++ ms).getD i dNode = ns.getD i dNode :=
  List.getD_append ns ms dNode i h

theorem getD_append_len (ns : List JNode) (nd : JNode) :
    (ns ++ [nd]).getD ns.length dNode = nd := by
  rw [List.getD_append_right _ _ _ _ (Nat.le_refl _)]
  simp

theorem getD_ge_len {ns : List JNode} {i : Nat} (h : ns.length ≤ i) :
    ns.getD i dNode = dNode :=
  List.getD_eq_default ns dNode h

theorem ChildrenOK_append {ns : List JNode} {nd : JNode}
    (h : ChildrenOK ns) (hc : ∀ c ∈ nd.children.getD [], c < ns.length) :
    ChildrenOK (ns ++ [nd]) := by
  intro i c hmem
  rcases Nat.lt_trichotomy i ns.length with hi | hi | hi
  · exact h i c (by rwa [getD_append_lt hi] at hmem)
  · subst hi
    rw [getD_append_len] at hmem
    exact hc c hmem
  · rw [getD_ge_len (by simp; omega)] at hmem
    simp [dNode] at hmem

/-- Invariant bundle for `processGroup`. -/
def Pg (ctx : Context) (g : Group) : Prop :=
  (processGroup ctx g).2.includeAttributes = ctx.includeAttributes ∧
  (processGroup ctx g).2.dataBytes = ctx.dataBytes ∧
  (processGroup ctx g).2.dataItems = ctx.dataItems ∧
  (∃ t, (processGroup ctx g).2.nodes = ctx.nodes ++ t) ∧
  (processGroup ctx g).1 + 1 = (processGroup ctx g).2.nodes.length ∧
  ctx.nodes.length ≤ (processGroup ctx g).1 ∧
  (processGroup ctx g).2.nodes.length = ctx.nodes.length + gCount g ∧
  (ChildrenOK ctx.nodes → ChildrenOK (processGroup ctx g).2.nodes) ∧
  (ctx.includeAttributes = false → extrasNoneAll ctx.nodes = true →
    extrasNoneAll (processGroup ctx g).2.nodes = true)

/-- Invariant bundle for `processChildren`. -/
def Pc (ctx : Context) (gs : List Group) : Prop :=
  (processChildren ctx gs).2.includeAttributes = ctx.includeAttributes ∧
  (processChildren ctx gs).2.dataBytes = ctx.dataBytes ∧
  (processChildren ctx gs).2.dataItems = ctx.dataItems ∧
  (∃ t, (processChildren ctx gs).2.nodes = ctx.nodes ++ t) ∧
  (processChildren ctx gs).1.length = gs.length ∧
  (processChildren ctx gs).2.nodes.length = ctx.nodes.length + gsCount gs ∧
  List.Pairwise (· < ·) (processChildren ctx gs).1 ∧
  (∀ x ∈ (processChildren ctx gs).1,
    ctx.nodes.length ≤ x ∧ x < (processChildren ctx gs).2.nodes.length) ∧
  (ChildrenOK ctx.nodes → ChildrenOK (processChildren ctx gs).2.nodes) ∧
  (ctx.includeAttributes = false → extrasNoneAll ctx.nodes = true →
    extrasNoneAll (processChildren ctx gs).2.nodes = true)

theorem processChildren_nil (ctx : Context) : processChildren ctx [] = ([], ctx) := by
  simp [processChildren]

theorem processChildren_cons (ctx : Context) (g : Group) (rest : List Group) :
    processChildren ctx (g :: rest) =
      ((processGroup ctx g).1 :: (processChildren (processGroup ctx g).2 rest).1,
       (processChildren (processGroup ctx g).2 rest).2) := by
  simp [processChildren]

theorem processGroup_node (ctx : Context) (kind : GKind) (name : Option String)
    (attrs : List Attribute) (cs : List Group) :
    processGroup ctx (.node kind name attrs cs) =
      ((processChildren ctx cs).2.nodes.length,
       { (processChildren ctx cs).2 with
         nodes := (processChildren ctx cs).2.nodes ++
           [⟨name,
             if ctx.includeAttributes && !attrs.isEmpty then
               some (attrs.map fun a => (a.key, a.val))
             else none,
             if !cs.isEmpty then some (processChildren ctx cs).1 else none⟩] }) := by
  simp [processGroup]

theorem stepNode (ctx : Context) (kind : GKind) (name : Option String)
    (attrs : List Attribute) (cs : List Group) (h : Pc ctx cs) :
    Pg ctx (.node kind name attrs cs) := by
  obtain ⟨h1, h2, h3, ⟨t, ht⟩, h5, h6, h7, h8, h9, h10⟩ := h
  unfold Pg
  rw [processGroup_node]
  refine ⟨h1, h2, h3, ⟨t ++ [_], by rw [ht, List.append_assoc]⟩, ?_, ?_, ?_, ?_, ?_⟩
  · simp
  · simp
    omega
  · simp [gCount]
    omega
  · intro hOK
    refine ChildrenOK_append (h9 hOK) ?_
    intro c hc
    by_cases hcs : cs.isEmpty <;> simp [hcs] at hc
    exact (h8 c hc).2
  · intro hflag hall
    have := h10 hflag hall
    simp [extrasNoneAll, hflag] at this ⊢
    exact this

theorem stepNil (ctx : Context) : Pc ctx [] := by
  unfold Pc
  rw [processChildren_nil]
  refine ⟨rfl, rfl, rfl, ⟨[], by simp⟩, rfl, by simp [gsCount], .nil, by simp, id,
    fun _ h => h⟩

theorem stepCons (ctx : Context) (g : Group) (rest : List Group)
    (hg : Pg ctx g) (hc : Pc (processGroup ctx g).2 rest) :
    Pc ctx (g :: rest) := by
  obtain ⟨hg1, hg2, hg3, ⟨t1, ht1⟩, hg5, hg6, hg7, hg8, hg9⟩ := hg
  obtain ⟨hc1, hc2, hc3, ⟨t2, ht2⟩, hc5, hc6, hc7, hc8, hc9, hc10⟩ := hc
  unfold Pc
  rw [processChildren_cons]
  dsimp only
  have hlen2 : (processChildren (processGroup ctx g).2 rest).2.nodes.length =
      (processGroup ctx g).2.nodes.length + t2.length := by
    rw [ht2, List.length_append]
  refine ⟨hc1.trans hg1, hc2.trans hg2, hc3.trans hg3,
    ⟨t1 ++ t2, by rw [ht2, ht1, List.append_assoc]⟩, ?_, ?_, ?_, ?_, ?_, ?_⟩
  · simp [hc5]
  · simp [gsCount]
    omega
  · refine List.Pairwise.cons ?_ hc7
    intro x hx
    have := (hc8 x hx).1
    omega
  · intro x hx
    rcases List.mem_cons.mp hx with hx | hx
    · subst hx
      constructor
      · exact hg6
      · omega
    · have := hc8 x hx
      omega
  · intro hOK
    exact hc9 (hg8 hOK)
  · intro hflag hall
    exact hc10 (hg1.trans hflag) (hg9 hflag hall)

theorem pg_all : ∀ (ctx : Context) (g : Group), Pg ctx g :=
  processGroup.induct Pg Pc stepNode stepNil stepCons

theorem pc_all : ∀ (ctx : Context) (gs : List Group), Pc ctx gs :=
  processChildren.induct Pg Pc stepNode stepNil stepCons

/-- The direct Group children of every Model across every File, in
File-order then Model-order then Group-order — the groups that become
scene roots. -/
def modelChildren (store : List Group) : List Group :=
  store.flatMap fun f => f.groups.flatMap Group.groups

theorem processChildren_append (xs ys : List Group) : ∀ ctx : Context,
    processChildren ctx (xs ++ ys) =
      ((processChildren ctx xs).1 ++
        (processChildren (processChildren ctx xs).2 ys).1,
       (processChildren (processChildren ctx xs).2 ys).2) := by
  induction xs with
  | nil => intro ctx; simp [processChildren_nil]
  | cons g rest ih =>
    intro ctx
    rw [List.cons_append, processChildren_cons, processChildren_cons, ih]
    simp

theorem processModels_eq (ms : List Group) : ∀ (ctx : Context) (sib : List Nat),
    processModels ctx sib ms =
      (sib ++ (processChildren ctx (ms.flatMap Group.groups)).1,
       (processChildren ctx (ms.flatMap Group.groups)).2) := by
  induction ms with
  | nil => intro ctx sib; simp [processModels, processChildren_nil]
  | cons m ms ih =>
    intro ctx sib
    rw [List.flatMap_cons, processChildren_append]
    simp only [processModels, processModel, ih, List.append_assoc]

theorem processFiles_eq (fs : List Group) : ∀ (ctx : Context) (sib : List Nat),
    processFiles ctx sib fs =
      (sib ++ (processChildren ctx (modelChildren fs)).1,
       (processChildren ctx (modelChildren fs)).2) := by
  induction fs with
  | nil => intro ctx sib; simp [processFiles, modelChildren, processChildren_nil]
  | cons f fs ih =>
    intro ctx sib
    rw [modelChildren, List.flatMap_cons, processChildren_append]
    simp only [processFiles, processFile, processModels_eq, ih, modelChildren,
      List.append_assoc]

theorem walkStore_eq (store : List Group) :
    walkStore store = processChildren initCtx (modelChildren store) := by
  rw [walkStore, processFiles_eq]
  simp

/-- C4: for any input forest, every child node's index in the emitted
`nodes` array is strictly less than its parent's index (no forward
references), and a node is appended only after its children with its
index equal to the array size immediately before appending. -/
theorem claim_C4 : ∀ (store : List Group) (ctx : Context) (g : Group),
    childrenOKb ((walkStore store).2.nodes) = true ∧
    (processGroup ctx g).2.nodes.length = (processGroup ctx g).1 + 1 := by
  intro store ctx g
  constructor
  · apply childrenOKb_of_ChildrenOK
    rw [walkStore_eq]
    obtain ⟨-, -, -, -, -, -, -, -, hOK, -⟩ := pc_all initCtx (modelChildren store)
    exact hOK ChildrenOK_nil
  · obtain ⟨-, -, -, -, h5, -⟩ := pg_all ctx g
    exact h5.symm

/-- C5: `scenes[0].nodes` receives exactly the indices of the direct
Group children of every Model across every File, in File-then-Model-
then-Group order, without duplicates or omissions, and File/Model nodes
produce no JSON node (the node array holds exactly the groups of those
subtrees). -/
theorem claim_C5 (store : List Group) :
    walkStore store = processChildren initCtx (modelChildren store) ∧
    (walkStore store).1.length = (modelChildren store).length ∧
    List.Pairwise (· < ·) (walkStore store).1 ∧
    (walkStore store).1.Nodup ∧
    ((walkStore store).1.all fun i =>
      decide (i < (walkStore store).2.nodes.length)) = true ∧
    (walkStore store).2.nodes.length = gsCount (modelChildren store) := by
  obtain ⟨-, -, -, -, h5, h6, h7, h8, -, -⟩ := pc_all initCtx (modelChildren store)
  rw [walkStore_eq]
  refine ⟨rfl, h5, h7, h7.imp Nat.ne_of_lt, ?_, by simpa [initCtx] using h6⟩
  rw [List.all_eq_true]
  intro x hx
  exact decide_eq_true (h8 x hx).2

theorem processGroup_extras {ctx : Context} {g : Group}
    (hflag : ctx.includeAttributes = true) (hattrs : g.attributes ≠ []) :
    ((processGroup ctx g).2.nodes.getD (processGroup ctx g).1 dNode).extras
      = some (g.attributes.map fun a => (a.key, a.val)) := by
  cases g with
  | node kind name attrs cs =>
    rw [processGroup_node]
    dsimp only
    rw [getD_append_len]
    simp only [Group.attributes] at hattrs ⊢
    cases attrs with
    | nil => exact absurd rfl hattrs
    | cons a as => simp [hflag]

/-- C3 counterexample: for a Group with the two attributes
`("a","1"), ("a","2")`, the emitted `extras` object keeps BOTH members —
rapidjson's `AddMember` appends without checking for an existing key —
so the emitted object does not have unique keys and the earlier member
is not overwritten. -/
theorem claim_C3_cex :
    ((processGroup initCtx
        (.node .group none [⟨"a", "1"⟩, ⟨"a", "2"⟩] [])).2.nodes.getD 0 dNode).extras
      = some [("a", "1"), ("a", "2")] ∧
    ¬ ((((processGroup initCtx
        (.node .group none [⟨"a", "1"⟩, ⟨"a", "2"⟩] [])).2.nodes.getD 0 dNode).extras.getD
          []).map Prod.fst).Nodup := by
  constructor
  · decide
  · decide

/-- C3 (amended): if two Attributes on the same Group share a key, both
appear in the emitted `extras` member list in source iteration order —
the later one does not overwrite the earlier and the emitted object's
keys need not be unique (a JSON reader applying last-wins semantics
observes the later value). -/
theorem claim_C3 : ∀ (ctx : Context) (g : Group),
    ctx.includeAttributes = true → g.attributes ≠ [] →
    ((processGroup ctx g).2.nodes.getD (processGroup ctx g).1 dNode).extras.getD []
      = g.attributes.map fun a => (a.key, a.val) := by
  intro ctx g hflag hattrs
  rw [processGroup_extras hflag hattrs]
  rfl

theorem claim_C3_witness :
    ((processGroup initCtx
        (.node .group none [⟨"a", "1"⟩, ⟨"a", "2"⟩] [])).2.nodes.getD
      (processGroup initCtx
        (.node .group none [⟨"a", "1"⟩, ⟨"a", "2"⟩] [])).1 dNode).extras.getD []
      = ([⟨"a", "1"⟩, ⟨"a", "2"⟩] : List Attribute).map fun a => (a.key, a.val) :=
  claim_C3 initCtx (.node .group none [⟨"a", "1"⟩, ⟨"a", "2"⟩] []) rfl (by decide)

/-- C7: a Group carrying attributes gets an `extras` object listing every
Attribute as a string-valued member in source iteration order, and with
the include-attributes flag false no emitted node carries an `extras`
member. -/
theorem claim_C7 : ∀ (ctx : Context) (g : Group) (store : List Group),
    ctx.includeAttributes = true → g.attributes ≠ [] →
    ((processGroup ctx g).2.nodes.getD (processGroup ctx g).1 dNode).extras
        = some (g.attributes.map fun a => (a.key, a.val)) ∧
    extrasNoneAll ((walkStoreNoAttrs store).2.nodes) = true := by
  intro ctx g store hflag hattrs
  constructor
  · exact processGroup_extras hflag hattrs
  · rw [walkStoreNoAttrs, processFiles_eq]
    dsimp only
    obtain ⟨-, -, -, -, -, -, -, -, -, hext⟩ :=
      pc_all ⟨[], 0, [], false⟩ (modelChildren store)
    exact hext rfl rfl

theorem claim_C7_witness :
    ((processGroup initCtx
        (.node .group (some "A") [⟨"unit", "mm"⟩] [])).2.nodes.getD
      (processGroup initCtx
        (.node .group (some "A") [⟨"unit", "mm"⟩] [])).1 dNode).extras
        = some (([⟨"unit", "mm"⟩] : List Attribute).map fun a => (a.key, a.val)) ∧
    extrasNoneAll ((walkStoreNoAttrs
      [.node .file none [] [.node .model none [] [.node .group none [⟨"k", "v"⟩] []]]]).2.nodes)
      = true :=
  claim_C7 initCtx (.node .group (some "A") [⟨"unit", "mm"⟩] [])
    [.node .file none [] [.node .model none [] [.node .group none [⟨"k", "v"⟩] []]]]
    rfl (by decide)

/-- C9: under the no-overflow precondition the `addDataItem` assertion
holds, the returned offset is the previous `dataBytes`, and the 32-bit
running total stays mathematically exact (no wraparound occurs). -/
theorem claim_C9 : ∀ (ctx : Context) (bytes : List Byte) (copy : Bool),
    ctx.dataBytes + bytes.length ≤ 2 ^ 32 - 1 →
    addDataItemAssert ctx bytes.length ∧
    (addDataItem ctx bytes copy).2.dataBytes = ctx.dataBytes + bytes.length ∧
    (addDataItem ctx bytes copy).1 = ctx.dataBytes := by
  intro ctx bytes copy h
  refine ⟨h, ?_, rfl⟩
  simp only [addDataItem, u32]
  rw [Nat.mod_eq_of_lt (a := bytes.length) (by omega)]
  exact Nat.mod_eq_of_lt (by omega)

theorem claim_C9_witness :
    addDataItemAssert initCtx (strBytes "test0").length ∧
    (addDataItem initCtx (strBytes "test0") false).2.dataBytes =
      initCtx.dataBytes + (strBytes "test0").length ∧
    (addDataItem initCtx (strBytes "test0") false).1 = initCtx.dataBytes :=
  claim_C9 initCtx (strBytes "test0") false (by decide)

theorem walkStore_data (store : List Group) :
    (walkStore store).2.dataBytes = 0 ∧ (walkStore store).2.dataItems = [] := by
  rw [walkStore_eq]
  obtain ⟨-, h2, h3, -⟩ := pc_all initCtx (modelChildren store)
  exact ⟨by simpa [initCtx] using h2, by simpa [initCtx] using h3⟩

theorem exportCtx_spec (store : List Group) :
    (exportCtx store).dataBytes = 10 ∧
    (exportCtx store).dataItems =
      [⟨strBytes "test0", 5⟩, ⟨strBytes "test1", 5⟩] := by
  obtain ⟨hd, hi⟩ := walkStore_data store
  unfold exportCtx
  simp only [addDataItem]
  rw [hd, hi]
  constructor
  · decide
  · decide

theorem writeItems_ok (path : String) : ∀ (items : List DataItem) (k off : Nat)
    (acc : List Byte), (∀ it ∈ items, it.size = it.bytes.length) →
    writeItems path allOk k off acc items =
      ⟨true, [], true, true, acc ++ (items.map DataItem.bytes).flatten⟩ := by
  intro items
  induction items with
  | nil => intro k off acc _; simp [writeItems]
  | cons it items ih =>
    intro k off acc hsz
    rw [writeItems, if_pos (show allOk.writeOk k = true from rfl)]
    rw [hsz it (List.mem_cons_self it items), List.take_length,
      ih _ _ _ (fun x hx => hsz x (List.mem_cons_of_mem it hx))]
    simp [List.append_assoc]

/-- C10: independently of the scene, `exportGLTF` registers exactly the
two 5-byte placeholder payloads `"test0"` (by reference) and `"test1"`
(by copy), `dataBytes` ends at 10, and on a fully successful run the
written BIN chunk body is exactly the bytes of `"test0test1"`. -/
theorem claim_C10 : ∀ (store : List Group) (path : String),
    (exportCtx store).dataBytes = 10 ∧
    (exportCtx store).dataItems.map DataItem.bytes =
      [strBytes "test0", strBytes "test1"] ∧
    (exportGLTF store path allOk).ok = true ∧
    (exportGLTF store path allOk).written =
      gltfHeaderBytes ++ jsonChunkHeaderOf store ++ jsonBytesOf store ++
        binChunkHeaderOf store ++ (strBytes "test0" ++ strBytes "test1") := by
  intro store path
  obtain ⟨hd, hi⟩ := exportCtx_spec store
  have hw : writeItems path allOk 4 0
      (gltfHeaderBytes ++ jsonChunkHeaderOf store ++ jsonBytesOf store ++
        binChunkHeaderOf store) (exportCtx store).dataItems =
      ⟨true, [], true, true,
        (gltfHeaderBytes ++ jsonChunkHeaderOf store ++ jsonBytesOf store ++
          binChunkHeaderOf store) ++
          ((exportCtx store).dataItems.map DataItem.bytes).flatten⟩ := by
    refine writeItems_ok path _ 4 0 _ ?_
    rw [hi]
    intro it hit
    simp only [List.mem_cons, List.not_mem_nil, or_false] at hit
    rcases hit with rfl | rfl
    · decide
    · decide
  have hexp : exportGLTF store path allOk =
      writeItems path allOk 4 0
        (gltfHeaderBytes ++ jsonChunkHeaderOf store ++ jsonBytesOf store ++
          binChunkHeaderOf store) (exportCtx store).dataItems := by
    rw [exportGLTF]
    simp only [show allOk.openOk = true from rfl,
      show ∀ k, allOk.writeOk k = true from fun _ => rfl, if_true]
  refine ⟨hd, by rw [hi]; rfl, ?_, ?_⟩
  · rw [hexp, hw]
  · rw [hexp, hw, hi]
    simp [List.append_assoc]

/-- C8: on each failure path — open failure, header write failure, JSON
chunk header/body write failure, BIN chunk header/body write failure —
`exportGLTF` makes exactly one logger call, at severity 2, with the
message constructor that names the destination path (and, for a BIN body
write failure, the byte offset reached so far), closes the stream iff it
was opened, and returns `false`; the bytes already written stay written. -/
theorem claim_C8 : ∀ (store : List Group) (path : String) (oracle : WriteOracle),
    (oracle.openOk = false →
      exportGLTF store path oracle =
        ⟨false, [⟨2, .openFail path⟩], false, false, []⟩) ∧
    (oracle.openOk = true → oracle.writeOk 0 = false →
      exportGLTF store path oracle =
        ⟨false, [⟨2, .headerFail path⟩], true, true, []⟩) ∧
    (oracle.openOk = true → oracle.writeOk 0 = true → oracle.writeOk 1 = false →
      exportGLTF store path oracle =
        ⟨false, [⟨2, .jsonHeaderFail path⟩], true, true, gltfHeaderBytes⟩) ∧
    (oracle.openOk = true → oracle.writeOk 0 = true → oracle.writeOk 1 = true →
      oracle.writeOk 2 = false →
      exportGLTF store path oracle =
        ⟨false, [⟨2, .jsonDataFail path⟩], true, true,
          gltfHeaderBytes ++ jsonChunkHeaderOf store⟩) ∧
    (oracle.openOk = true → oracle.writeOk 0 = true → oracle.writeOk 1 = true →
      oracle.writeOk 2 = true → oracle.writeOk 3 = false →
      exportGLTF store path oracle =
        ⟨false, [⟨2, .binHeaderFail path⟩], true, true,
          gltfHeaderBytes ++ jsonChunkHeaderOf store ++ jsonBytesOf store⟩) ∧
    (oracle.openOk = true → oracle.writeOk 0 = true → oracle.writeOk 1 = true →
      oracle.writeOk 2 = true → oracle.writeOk 3 = true → oracle.writeOk 4 = false →
      exportGLTF store path oracle =
        ⟨false, [⟨2, .binDataFail path 0⟩], true, true,
          gltfHeaderBytes ++ jsonChunkHeaderOf store ++ jsonBytesOf store ++
            binChunkHeaderOf store⟩) ∧
    (oracle.openOk = true → oracle.writeOk 0 = true → oracle.writeOk 1 = true →
      oracle.writeOk 2 = true → oracle.writeOk 3 = true → oracle.writeOk 4 = true →
      oracle.writeOk 5 = false →
      exportGLTF store path oracle =
        ⟨false, [⟨2, .binDataFail path 5⟩], true, true,
          gltfHeaderBytes ++ jsonChunkHeaderOf store ++ jsonBytesOf store ++
            binChunkHeaderOf store ++ strBytes "test0"⟩) := by
  intro store path oracle
  obtain ⟨-, hi⟩ := exportCtx_spec store
  refine ⟨?_, ?_, ?_, ?_, ?_, ?_, ?_⟩
  · intro h0
    rw [exportGLTF, h0]
    rfl
  · intro h0 h1
    rw [exportGLTF, h0, h1]
    rfl
  · intro h0 h1 h2
    rw [exportGLTF, h0, h1, h2]
    rfl
  · intro h0 h1 h2 h3
    rw [exportGLTF, h0, h1, h2, h3]
    rfl
  · intro h0 h1 h2 h3 h4
    rw [exportGLTF, h0, h1, h2, h3, h4]
    rfl
  · intro h0 h1 h2 h3 h4 h5
    rw [exportGLTF, h0, h1, h2, h3, h4]
    simp only [if_true]
    rw [hi, writeItems, h5]
    rfl
  · intro h0 h1 h2 h3 h4 h5 h6
    rw [exportGLTF, h0, h1, h2, h3, h4]
    simp only [if_true]
    rw [hi, writeItems, h5]
    simp only [if_true]
    rw [writeItems, h6]
    simp only [if_false]
    rw [show ((⟨strBytes "test0", 5⟩ : DataItem).bytes.take
      (⟨strBytes "test0", 5⟩ : DataItem).size) = strBytes "test0" by decide]
    rw [show u32 (0 + (⟨strBytes "test0", 5⟩ : DataItem).size) = 5 by decide]
    simp

/-- The registered sizes of a sequence of payload registrations. -/
def sizesOf (ps : List (List Byte × Bool)) : List Nat :=
  ps.map fun p => p.1.length

/-- The expected offsets for payloads of the given sizes laid out
contiguously from `start`: each entry is `start` plus the sum of all
earlier sizes. -/
def offsetsOf (start : Nat) : List Nat → List Nat
  | [] => []
  | s :: ss => start :: offsetsOf (start + s) ss

/-- A sequence of `addDataItem` calls (payload bytes plus `copy` flag),
returning the offsets handed back and the final context. -/
def regAll : Context → List (List Byte × Bool) → List Nat × Context
  | ctx, [] => ([], ctx)
  | ctx, p :: ps =>
    let r := addDataItem ctx p.1 p.2
    let rest := regAll r.2 ps
    (r.1 :: rest.1, rest.2)

theorem mem_le_sum : ∀ (l : List Nat) (x : Nat), x ∈ l → x ≤ l.sum := by
  intro l
  induction l with
  | nil => intro x hx; simp at hx
  | cons a l ih =>
    intro x hx
    rcases List.mem_cons.mp hx with rfl | hx
    · simp
    · have := ih x hx
      simp
      omega

theorem regAll_spec : ∀ (ps : List (List Byte × Bool)) (ctx : Context),
    ctx.dataBytes + (sizesOf ps).sum ≤ 2 ^ 32 - 1 →
    (regAll ctx ps).1 = offsetsOf ctx.dataBytes (sizesOf ps) ∧
    (regAll ctx ps).2.dataBytes = ctx.dataBytes + (sizesOf ps).sum ∧
    (regAll ctx ps).2.dataItems =
      ctx.dataItems ++ ps.map fun p => (⟨p.1, u32 p.1.length⟩ : DataItem) := by
  intro ps
  induction ps with
  | nil => intro ctx h; simp [regAll, sizesOf, offsetsOf]
  | cons p ps ih =>
    intro ctx h
    have hsum : (sizesOf (p :: ps)).sum = p.1.length + (sizesOf ps).sum := by
      simp [sizesOf]
    have hlen : u32 p.1.length = p.1.length :=
      Nat.mod_eq_of_lt (by omega)
    have hdb : (addDataItem ctx p.1 p.2).2.dataBytes = ctx.dataBytes + p.1.length := by
      simp only [addDataItem, hlen]
      exact Nat.mod_eq_of_lt (by omega)
    have hdi : (addDataItem ctx p.1 p.2).2.dataItems =
        ctx.dataItems ++ [(⟨p.1, u32 p.1.length⟩ : DataItem)] := rfl
    have hoff : (addDataItem ctx p.1 p.2).1 = ctx.dataBytes := rfl
    obtain ⟨ih1, ih2, ih3⟩ := ih (addDataItem ctx p.1 p.2).2 (by omega)
    refine ⟨?_, ?_, ?_⟩
    · simp only [regAll, ih1, hoff, hdb, hsum, sizesOf, List.map_cons, offsetsOf]
    · simp only [regAll, ih2, hdb, hsum]
      omega
    · simp only [regAll, ih3, hdi, List.append_assoc, List.map_cons,
        List.singleton_append]

theorem offsetsOf_shift : ∀ (ss : List Nat) (a s : Nat),
    offsetsOf (a + s) ss = (offsetsOf s ss).map (a + ·) := by
  intro ss
  induction ss with
  | nil => intro a s; rfl
  | cons x ss ih =>
    intro a s
    simp only [offsetsOf, List.map_cons]
    rw [Nat.add_assoc, ih]

theorem offsetsOf_length : ∀ (ss : List Nat) (s : Nat),
    (offsetsOf s ss).length = ss.length := by
  intro ss
  induction ss with
  | nil => intro s; rfl
  | cons x ss ih => intro s; simp [offsetsOf, ih]

theorem flatten_slice : ∀ (ls : List (List Byte)) (k : Nat), k < ls.length →
    (ls.flatten.drop ((offsetsOf 0 (ls.map List.length)).getD k 0)).take
      ((ls.map List.length).getD k 0) = ls.getD k [] := by
  intro ls
  induction ls with
  | nil => intro k hk; simp at hk
  | cons l ls ih =>
    intro k hk
    cases k with
    | zero =>
      simp only [List.map_cons, offsetsOf, List.getD_cons_zero, List.flatten_cons,
        List.drop_zero]
      exact List.take_left l ls.flatten
    | succ k =>
      have hk' : k < ls.length := by simpa using hk
      have hklen : k < (ls.map List.length).length := by simpa using hk'
      have hoff : (offsetsOf 0 ((l :: ls).map List.length)).getD (k + 1) 0 =
          l.length + (offsetsOf 0 (ls.map List.length)).getD k 0 := by
        simp only [List.map_cons, offsetsOf, List.getD_cons_succ]
        rw [Nat.add_comm 0 l.length, offsetsOf_shift (ls.map List.length) l.length 0]
        rw [List.getD_eq_getElem _ _ (by rw [List.length_map, offsetsOf_length]; exact hklen),
          List.getD_eq_getElem _ _ (by rw [offsetsOf_length]; exact hklen),
          List.getElem_map]
    -- reduce both sides of the goal using the computed offset
      rw [hoff]
      simp only [List.flatten_cons, List.map_cons, List.getD_cons_succ]
      rw [List.drop_append]
      exact ih k hk'

/-- C6: registering payloads of sizes `s1, ..., sn` in order returns the
offsets `0, s1, s1+s2, ...` (each call returns the sum of all previously
registered sizes), the running total `dataBytes` always equals the sum
of all registered sizes, and the BIN chunk body streams the registered
bytes contiguously in registration order, so the slice of the body at
each returned offset is exactly the corresponding payload. -/
theorem claim_C6 : ∀ (ps : List (List Byte × Bool)) (path : String),
    (sizesOf ps).sum ≤ 2 ^ 32 - 1 →
    (regAll initCtx ps).1 = offsetsOf 0 (sizesOf ps) ∧
    (regAll initCtx ps).2.dataBytes = (sizesOf ps).sum ∧
    (regAll initCtx ps).2.dataItems.map DataItem.bytes = ps.map Prod.fst ∧
    (writeItems path allOk 4 0 [] (regAll initCtx ps).2.dataItems).written
      = (ps.map Prod.fst).flatten ∧
    ((List.range ps.length).all fun k =>
      decide ((((ps.map Prod.fst).flatten.drop ((regAll initCtx ps).1.getD k 0)).take
        ((sizesOf ps).getD k 0)) = (ps.getD k ([], false)).1)) = true := by
  intro ps path h
  obtain ⟨h1, h2, h3⟩ := regAll_spec ps initCtx (by simpa [initCtx] using h)
  have h1' : (regAll initCtx ps).1 = offsetsOf 0 (sizesOf ps) := by
    simpa [initCtx] using h1
  have h2' : (regAll initCtx ps).2.dataBytes = (sizesOf ps).sum := by
    simpa [initCtx] using h2
  have h3' : (regAll initCtx ps).2.dataItems =
      ps.map fun p => (⟨p.1, u32 p.1.length⟩ : DataItem) := by
    simpa [initCtx] using h3
  have hbytes : (regAll initCtx ps).2.dataItems.map DataItem.bytes =
      ps.map Prod.fst := by
    rw [h3', List.map_map]
    exact List.map_congr_left fun a _ => rfl
  refine ⟨h1', h2', hbytes, ?_, ?_⟩
  · rw [writeItems_ok path _ 4 0 [] ?_, hbytes]
    · simp
    · intro it hit
      rw [h3'] at hit
      rcases List.mem_map.mp hit with ⟨p, hp, rfl⟩
      have hmem : p.1.length ∈ sizesOf ps := by
        rw [sizesOf]
        exact List.mem_map_of_mem _ hp
      have := mem_le_sum _ _ hmem
      exact Nat.mod_eq_of_lt (by omega)
  · rw [List.all_eq_true]
    intro k hk
    have hk' : k < ps.length := List.mem_range.mp hk
    apply decide_eq_true
    have hfs : sizesOf ps = (ps.map Prod.fst).map List.length := by
      rw [sizesOf, List.map_map]
      exact List.map_congr_left fun a _ => rfl
    rw [h1', hfs, flatten_slice (ps.map Prod.fst) k (by simpa using hk'),
      List.getD_eq_getElem _ _ (by simpa using hk'),
      List.getD_eq_getElem _ _ hk', List.getElem_map]

theorem claim_C6_witness :
    (regAll initCtx [(strBytes "test0", false), (strBytes "test1", true)]).1 =
      offsetsOf 0 (sizesOf [(strBytes "test0", false), (strBytes "test1", true)]) ∧
    (regAll initCtx [(strBytes "test0", false), (strBytes "test1", true)]).2.dataBytes =
      (sizesOf [(strBytes "test0", false), (strBytes "test1", true)]).sum ∧
    (regAll initCtx
        [(strBytes "test0", false), (strBytes "test1", true)]).2.dataItems.map
      DataItem.bytes =
      [(strBytes "test0", false), (strBytes "test1", true)].map Prod.fst ∧
    (writeItems "out.glb" allOk 4 0 []
        (regAll initCtx
          [(strBytes "test0", false), (strBytes "test1", true)]).2.dataItems).written =
      ([(strBytes "test0", false), (strBytes "test1", true)].map Prod.fst).flatten ∧
    ((List.range [(strBytes "test0", false), (strBytes "test1", true)].length).all fun k =>
      decide (((([(strBytes "test0", false), (strBytes "test1", true)].map
          Prod.fst).flatten.drop
        ((regAll initCtx [(strBytes "test0", false), (strBytes "test1", true)]).1.getD
          k 0)).take
        ((sizesOf [(strBytes "test0", false), (strBytes "test1", true)]).getD k 0)) =
        ([(strBytes "test0", false), (strBytes "test1", true)].getD k ([], false)).1)) =
      true :=
  claim_C6 [(strBytes "test0", false), (strBytes "test1", true)] "out.glb" (by decide)

theorem claim_C8_witness :
    exportGLTF [] "out.glb" (failAt 0) =
      ⟨false, [⟨2, .headerFail "out.glb"⟩], true, true, []⟩ :=
  (claim_C8 [] "out.glb" (failAt 0)).2.1 rfl rfl

set_option maxRecDepth 100000 in
/-- C1 fails on the code: the header magic and version fields are as
claimed, but the `totalLength` field written is the fixed constant
`12 + 8 + 8 = 28` for every scene, not `12 + 8 + paddedJsonLength + 8 +
paddedBinLength` (which for the empty scene is `156`): evaluated on the
empty store, the third header word is 28 and differs from the required
value. -/
theorem claim_C1 :
    u32At (exportGLTF [] "out.glb" allOk).written 0 = 0x46546C67 ∧
    u32At (exportGLTF [] "out.glb" allOk).written 4 = 2 ∧
    u32At (exportGLTF [] "out.glb" allOk).written 8 = 12 + 8 + 8 ∧
    12 + 8 + pad4 (jsonBytesOf []).length + 8 + pad4 (exportCtx []).dataBytes = 156 ∧
    u32At (exportGLTF [] "out.glb" allOk).written 8 ≠
      12 + 8 + pad4 (jsonBytesOf []).length + 8 + pad4 (exportCtx []).dataBytes := by
  refine ⟨by decide, by decide, by decide, by decide, by decide⟩

set_option maxRecDepth 100000 in
/-- C2 fails on the code: no chunk is padded.  On the empty store the
serialized JSON is 114 bytes (not a multiple of 4), the JSON chunk
length field holds the unpadded 114, the BIN chunk length field holds
the unpadded 10, and the file is exactly `12 + 8 + 114 + 8 + 10` bytes
long — so no space or zero fill bytes are ever written after either
chunk body. -/
theorem claim_C2 :
    (exportGLTF [] "out.glb" allOk).written.length = 12 + 8 + 114 + 8 + 10 ∧
    (jsonBytesOf []).length = 114 ∧
    u32At (exportGLTF [] "out.glb" allOk).written 12 = 114 ∧
    u32At (exportGLTF [] "out.glb" allOk).written 134 = 10 ∧
    pad4 114 ≠ 114 ∧
    pad4 10 ≠ 10 := by
  refine ⟨by decide, by decide, by decide, by decide, by decide, by decide⟩

end RvmGltf
